import Mathlib

/-!
Verification development for the Gravitate-Health preprocessing-service-cleaner
repository.  The definitions below are a shallow embedding of the Python
sources:

* `src/preprocessor/models/html_element_link.py` — the `Coding`,
  `CodeableReference` and `HtmlElementLink` classes and their dict round trips;
* `src/preprocessor/models/html_element_link_manager.py` — the extension-list
  store (`list/get/add/remove/...`) operating on a CompositionDict dictionary;
* `src/preprocessor/models/html_element_link_cleanup.py` — the reconciliation
  pass `cleanup_unused_html_element_links`;
* `src/preprocessor/models/html_optimizer.py` — the tree-rewriting passes
  `_remove_empty_tags`, `_simplify_nested_tags`, `optimize_html`,
  `extract_html_classes`, `validate_content_integrity`;
* `src/preprocessor/controllers/preprocess_controller.py` — the allow-list
  computation of the style-cleanup step of `_apply_preprocessing`.

Python dictionaries are embedded as structures whose fields are exactly the
keys the code reads or writes, with `Option` distinguishing an absent key from
a present one.  Python's `bs4`/`lxml` markup trees are embedded as a mutual
inductive of element and text nodes.  The embedding of every function keeps
the source's control flow; each departure forced by the change of language
(e.g. in-place mutation becoming state passing) is recorded in the doc
comment of the definition concerned.
-/

/-! ## Dictionary shapes of the FHIR extension wire format

`html_element_link.py` reads and writes these keys:
`{"extension": [{"url": "elementClass", "valueString": s},
                {"url": "concept", "valueCodeableReference":
                   {"concept": {"coding": [{"system"?,"code"?,"display"?}]}}}],
  "url": <structure definition url>}`.
A field of value `none` models the key being absent from the dictionary. -/

/-- One entry of a `coding` list: the dictionary form of a FHIR Coding, as
read/written by `Coding.from_dict`/`Coding.to_dict`. -/
structure CodingDict where
  system : Option String := none
  code : Option String := none
  display : Option String := none
deriving DecidableEq, Repr

/-- The dictionary under the `concept` key: `{"coding": [...]}`. -/
structure ConceptDict where
  coding : Option (List CodingDict) := none
deriving DecidableEq, Repr

/-- The dictionary form of a CodeableReference:
`{"concept": {"coding": [...]}}`. -/
structure CRDict where
  concept : Option ConceptDict := none
deriving DecidableEq, Repr

/-- One element of an extension's inner `extension` list.  The code reads the
keys `url`, `valueString` and `valueCodeableReference` from such entries. -/
structure SubExt where
  url : Option String := none
  valueString : Option String := none
  valueCodeableReference : Option CRDict := none
deriving DecidableEq, Repr

/-- One element of a CompositionDict's top-level `extension` list.  The code reads
the keys `url` and `extension` from such entries
(`ext.get("url")`, `ext.get("extension", [])`). -/
structure ExtDict where
  url : Option String := none
  extension : List SubExt := []
deriving DecidableEq, Repr

/-- The slice of a FHIR CompositionDict resource dictionary the annotation store
touches: its `extension` list.  `none` models the `extension` key being
absent (the code distinguishes this from an empty list in
`remove_html_element_link` and `add_html_element_link`). -/
structure CompositionDict where
  extension : Option (List ExtDict) := none
deriving DecidableEq, Repr

/-! ## Python object model of html_element_link.py -/

/-- `Coding.__init__`: three optional string fields. -/
structure Coding where
  system : Option String := none
  code : Option String := none
  display : Option String := none
deriving DecidableEq, Repr

/-- `CodeableReference.__init__`: `self.codings = codings or []`. -/
structure CodeableReference where
  codings : List Coding := []
deriving DecidableEq, Repr

/-- `HtmlElementLink.__init__`: `element_class` may be `None`;
`self.concept = concept or CodeableReference()` (a `CodeableReference`
instance is always truthy in Python, so a non-`None` argument is kept). -/
structure HtmlElementLink where
  element_class : Option String := none
  concept : CodeableReference := {}
deriving DecidableEq, Repr

/-- Python truthiness of an optional string: `None` and `""` are falsy. -/
def strTruthy : Option String → Bool
  | none => false
  | some s => !(s == "")

/-- `HtmlElementLink.STRUCTURE_DEFINITION_URL` (html_element_link.py lines
114–116). -/
def HtmlElementLink.STRUCTURE_DEFINITION_URL : String :=
  "http://hl7.eu/fhir/ig/gravitate-health/StructureDefinition/HtmlElementLink"

/-- `Coding.from_dict` (html_element_link.py lines 27–36).  The Python code
first returns `cls()` when the dict is empty; on an empty dict the general
branch (`data.get(...)` three times) produces the same value, so both
branches collapse to field projection. -/
def Coding.from_dict (data : CodingDict) : Coding :=
  { system := data.system, code := data.code, display := data.display }

/-- `Coding.to_dict` (lines 38–47): each field is written only when truthy
(non-`None` and non-empty). -/
def Coding.to_dict (c : Coding) : CodingDict :=
  { system := if strTruthy c.system then c.system else none
    code := if strTruthy c.code then c.code else none
    display := if strTruthy c.display then c.display else none }

/-- `CodeableReference.from_dict` (lines 69–82):
`concept_data = data.get("concept", {})`, `coding_list =
concept_data.get("coding", [])`, then each entry through `Coding.from_dict`.
The `if not data: return cls()` branch produces the same value (empty dict
gives the empty coding list), so it needs no separate case. -/
def CodeableReference.from_dict (data : CRDict) : CodeableReference :=
  { codings := ((data.concept.getD {}).coding.getD []).map Coding.from_dict }

/-- `CodeableReference.to_dict` (lines 84–91): both Python branches produce
`{"concept": {"coding": [...]}}` (with an empty list when there are no
codings), so they collapse to one expression. -/
def CodeableReference.to_dict (c : CodeableReference) : CRDict :=
  { concept := some { coding := some (c.codings.map Coding.to_dict) } }

/-- The last `valueString` carried by a sub-extension with
`url == "elementClass"`, starting from `acc`: the `element_class` accumulator
of the loop of `HtmlElementLink.from_dict` (lines 146–153).  The Python loop
updates `element_class` and `concept` independently in a single pass; the two
accumulators are split into `lastElementClassVal` and `lastConceptVal` for
reasoning, which preserves the loop's last-assignment-wins behaviour. -/
def lastElementClassVal (l : List SubExt) (acc : Option String) : Option String :=
  l.foldl (fun a e => if e.url == some "elementClass" then e.valueString else a) acc

/-- The `concept` accumulator of the loop of `HtmlElementLink.from_dict`:
for each sub-extension, the `elif url == "concept"` branch parses
`ext.get("valueCodeableReference", {})`.  Entries whose url is
`"elementClass"` are consumed by the `if` branch and never reach the `elif`. -/
def lastConceptVal (l : List SubExt) (acc : Option CodeableReference) :
    Option CodeableReference :=
  l.foldl
    (fun a e =>
      if e.url == some "elementClass" then a
      else if e.url == some "concept" then
        some (CodeableReference.from_dict (e.valueCodeableReference.getD {}))
      else a)
    acc

/-- `HtmlElementLink.from_dict` (lines 126–154): scan the inner extension
list; then `cls(element_class=..., concept=...)` where the constructor turns a
`None` concept into an empty `CodeableReference`.  The `if not data` branch of
the source coincides with the scan of an empty list. -/
def HtmlElementLink.from_dict (data : ExtDict) : HtmlElementLink :=
  { element_class := lastElementClassVal data.extension none
    concept := (lastConceptVal data.extension none).getD {} }

/-- `HtmlElementLink.to_dict` (lines 156–181): the `elementClass` entry is
written only when `self.element_class` is truthy; the `concept` entry is
always written (`self.concept` is a `CodeableReference` instance, hence
truthy). -/
def HtmlElementLink.to_dict (l : HtmlElementLink) : ExtDict :=
  { url := some HtmlElementLink.STRUCTURE_DEFINITION_URL
    extension :=
      (if strTruthy l.element_class then
        [{ url := some "elementClass", valueString := l.element_class }]
      else []) ++
      [{ url := some "concept",
         valueCodeableReference := some l.concept.to_dict }] }

/-! ## html_element_link_manager.py -/

/-- `list_html_element_links` (manager lines 22–41): keep the extensions whose
`url` equals the structure definition url and parse each with
`HtmlElementLink.from_dict`.  The Python append loop is the filter-map. -/
def list_html_element_links (comp : CompositionDict) : List HtmlElementLink :=
  ((comp.extension.getD []).filter
      (fun e => e.url == some HtmlElementLink.STRUCTURE_DEFINITION_URL)).map
    HtmlElementLink.from_dict

/-- `get_html_element_link` (manager lines 44–61): first listed link whose
`element_class` equals the argument. -/
def get_html_element_link (comp : CompositionDict) (element_class : String) :
    Option HtmlElementLink :=
  (list_html_element_links comp).find? (fun l => l.element_class == some element_class)

/-- The removal predicate of `remove_html_element_link` (manager lines
131–142): the extension's `url` is the structure definition url and *any*
inner entry has `url == "elementClass"` and `valueString == element_class`. -/
def extMatchesKey (ext : ExtDict) (element_class : String) : Bool :=
  ext.url == some HtmlElementLink.STRUCTURE_DEFINITION_URL &&
    ext.extension.any
      (fun e => e.url == some "elementClass" && e.valueString == some element_class)

/-- `remove_html_element_link` (manager lines 111–144).  In-place mutation of
the composition becomes returning the new composition next to the Python
return value: `(removed, composition')`.  When the `extension` key is absent
the function returns `False` without touching the resource; otherwise it
keeps the non-matching extensions and reports whether the list shrank. -/
def remove_html_element_link (comp : CompositionDict) (element_class : String) :
    Bool × CompositionDict :=
  match comp.extension with
  | none => (false, comp)
  | some exts =>
    let newExts := exts.filter (fun e => !(extMatchesKey e element_class))
    (decide (newExts.length < exts.length), { comp with extension := some newExts })

/-- Python exceptions reachable in the embedded code paths. -/
inductive PyError where
  | typeError (msg : String)
  | valueError (msg : String)
deriving DecidableEq, Repr

/-- `add_html_element_link` (manager lines 64–108).  Raising `ValueError`
becomes the `Except.error` branch; the `isinstance` checks are enforced by the
Lean types and only the emptiness check on `element_class` remains.  The
returned pair carries the Python return value and the updated composition.
`composition["extension"] = []` followed by `append` is
`extension.getD [] ++ [new]` (the `getD` covers both the absent-key and the
present-key case). -/
def add_html_element_link (comp : CompositionDict) (element_class : String)
    (concept : CodeableReference) (replace_if_exists : Bool := false) :
    Except PyError (Bool × CompositionDict) :=
  if element_class == "" then
    .error (.valueError "element_class must be a non-empty string")
  else
    let newExt :=
      (HtmlElementLink.mk (some element_class) concept).to_dict
    match get_html_element_link comp element_class with
    | some _ =>
      if !replace_if_exists then .ok (false, comp)
      else
        let comp1 := (remove_html_element_link comp element_class).2
        .ok (true, { comp1 with extension := some (comp1.extension.getD [] ++ [newExt]) })
    | none =>
      .ok (true, { comp with extension := some (comp.extension.getD [] ++ [newExt]) })

/-- `get_element_classes` (manager lines 204–215): the truthy
`element_class` fields of all listed links, order preserved.  Note the Python
result is a *list*. -/
def get_element_classes (comp : CompositionDict) : List String :=
  (list_html_element_links comp).filterMap
    (fun l => match l.element_class with
      | some s => if s == "" then none else some s
      | none => none)

/-! ## html_element_link_cleanup.py -/

/-- Cleanup statistics dictionary of `cleanup_unused_html_element_links`. -/
structure CleanupStats where
  total : Nat := 0
  removed : Nat := 0
  kept : Nat := 0
deriving DecidableEq, Repr

/-- `cleanup_unused_html_element_links` (html_element_link_cleanup.py lines
17–65).  The function initialises the stats, sets `stats['total']`, returns
early when no links are found, and then computes
`unused_classes = extension_classes - html_classes` (line 51).  At that point
`extension_classes` is the *list* returned by `get_element_classes` while
`html_classes` is a set, and Python raises
`TypeError: unsupported operand type(s) for -: 'list' and 'set'` — neither
`list.__sub__` nor `set.__rsub__` accepts this pairing.  The raise is embedded
as the `Except.error` branch; the removal loop and the final `kept`
computation below line 51 are unreachable.  The `html_classes` argument is a
Python set of strings, embedded as a `List String` used as a set (it is never
inspected before the failing subtraction). -/
def cleanup_unused_html_element_links (comp : CompositionDict)
    (html_classes : List String) :
    Except PyError (CleanupStats × CompositionDict) :=
  let all_links := list_html_element_links comp
  let stats : CleanupStats := { total := all_links.length }
  if all_links.isEmpty then .ok (stats, comp)
  else
    let _extension_classes := get_element_classes comp
    let _ := html_classes
    .error (.typeError "unsupported operand type(s) for -: 'list' and 'set'")

/-! ## preprocess_controller.py: allow-list of the style-cleanup step -/

/-- The extension url string the controller compares against when collecting
the style-cleanup allow-list (preprocess_controller.py line 201).  Note it
differs from `HtmlElementLink.STRUCTURE_DEFINITION_URL`
(`hl7.org` versus `hl7.eu/fhir/ig/gravitate-health`). -/
def CONTROLLER_STYLE_CLEANUP_URL : String :=
  "http://hl7.org/fhir/StructureDefinition/HtmlElementLink"

/-- The `allowed_classes` set computed by `_apply_preprocessing` when
`ENABLE_STYLE_CLEANUP` is on (preprocess_controller.py lines 199–204): scan
`resource.get('extension', [])`; for each extension whose `url` equals
`CONTROLLER_STYLE_CLEANUP_URL`, add `ext_detail.get('valueString', '')` of
every inner entry with `url == 'elementClass'`.  The Python set is embedded
as the list of added strings in scan order, used only through membership. -/
def walkerAllowedClasses (resource : CompositionDict) : List String :=
  (resource.extension.getD []).foldl
    (fun acc ext =>
      if ext.url == some CONTROLLER_STYLE_CLEANUP_URL then
        acc ++ ext.extension.filterMap
          (fun d => if d.url == some "elementClass" then some (d.valueString.getD "") else none)
      else acc)
    []

/-! ## Markup tree model (bs4/lxml node trees)

`html_optimizer.py` works on BeautifulSoup trees parsed with the `lxml`
parser.  A node is either a text run (`NavigableString`) or an element
(`Tag`) with a name, an ordered attribute dictionary and ordered children.
Under the lxml parser a `class` attribute value is a list of whitespace-split
tokens; every other attribute value is a plain string.  The tree is a mutual
inductive (rather than `List HNode` nesting) so that every function below is
structurally recursive and reduces inside the kernel. -/

/-- Python `str.strip()` with no argument: drop leading and trailing
whitespace.  Implemented structurally on the character list so that it
reduces inside the kernel (`String.trim` is defined by well-founded recursion
on byte positions and does not).  `Char.isWhitespace` covers the ASCII
whitespace the embedded fragments use; Python also strips some further
Unicode space characters, which no theorem below exercises. -/
def pyStrip (s : String) : String :=
  String.mk (((s.data.dropWhile Char.isWhitespace).reverse.dropWhile Char.isWhitespace).reverse)

/-- A bs4 attribute value: a multi-valued attribute (`class`) is a token
list, any other attribute a plain string. -/
inductive AttrVal where
  | str (s : String)
  | toks (l : List String)
deriving DecidableEq, Repr

/-- The ordered attribute dictionary of a tag (attribute names unique in any
tree produced by parsing; insertion order preserved, as in a Python dict). -/
abbrev Attrs := List (String × AttrVal)

mutual
/-- A bs4 node: a text run or a tag. -/
inductive HNode where
  | text (s : String)
  | elem (tag : String) (attrs : Attrs) (children : HNodeList)

/-- The ordered children of a tag. -/
inductive HNodeList where
  | nil
  | cons (n : HNode) (l : HNodeList)
end

/-- First attribute value stored under `name`, i.e. `tag.get(name)`. -/
def attrLookup (name : String) (attrs : Attrs) : Option AttrVal :=
  (attrs.find? (fun p => p.1 == name)).map (·.2)

/-- `tag[name] = v`: replace the value in place when the key exists
(keeping its position, as a Python dict update does), otherwise append. -/
def attrSet (attrs : Attrs) (name : String) (v : AttrVal) : Attrs :=
  if (attrs.find? (fun p => p.1 == name)).isSome then
    attrs.map (fun p => if p.1 == name then (name, v) else p)
  else attrs ++ [(name, v)]

/-- Token reading of an attribute value, as
`set(attr_value) if isinstance(attr_value, list) else {attr_value}` does
(a string value becomes the one-element set holding the whole string). -/
def valToks : AttrVal → List String
  | .str s => [s]
  | .toks l => l

/-- Tokens of an optional attribute value; `none` gives `[]`
(`tag.get('class', [])`). -/
def optValToks : Option AttrVal → List String
  | none => []
  | some v => valToks v

/-- Deduplicate keeping first occurrences: the embedding of building a Python
set from a list, read back in a deterministic order.  Python's set iteration
order is unspecified (hash-dependent); no theorem below depends on the token
order, only on the token set. -/
def dedupKeepFirst (l : List String) : List String :=
  l.foldl (fun acc x => if x ∈ acc then acc else acc ++ [x]) []

/-- `list(outer_set | inner_set)` of `_merge_tag_attributes`, in the
deterministic order fixed by `dedupKeepFirst` (see its doc comment). -/
def tokenUnion (a b : List String) : List String :=
  dedupKeepFirst (a ++ b)

mutual
/-- The stripped, non-empty text runs of a node in descendant order:
what `get_text(strip=True)` concatenates.  bs4's `_all_strings` with
`strip=True` strips each `NavigableString` individually and skips the ones
that become empty.  Python `str.strip()` on ASCII whitespace coincides with
`String.trim`. -/
def stripTexts : HNode → List String
  | .text s => if pyStrip s == "" then [] else [pyStrip s]
  | .elem _ _ cs => stripTextsList cs
  termination_by structural n => n

/-- `stripTexts` over a child list, left to right. -/
def stripTextsList : HNodeList → List String
  | .nil => []
  | .cons c cs => stripTexts c ++ stripTextsList cs
  termination_by structural l => l
end

mutual
/-- The raw text runs of a node in descendant order (no stripping):
what `get_text()` without `strip` would concatenate. -/
def rawTexts : HNode → List String
  | .text s => [s]
  | .elem _ _ cs => rawTextsList cs
  termination_by structural n => n

/-- `rawTexts` over a child list, left to right. -/
def rawTextsList : HNodeList → List String
  | .nil => []
  | .cons c cs => rawTexts c ++ rawTextsList cs
  termination_by structural l => l
end

/-- `tag.get_text(strip=True)`: join of the individually stripped runs. -/
def getTextStrip (n : HNode) : String :=
  String.join (stripTexts n)

/-- Whether a child list contains an element node.  `bool(tag.find_all(True))`
is true iff the tag has an element descendant, and an element descendant at
any depth forces an element among the direct children (text runs have no
children), so the direct check is equivalent. -/
def hasElemMember : HNodeList → Bool
  | .nil => false
  | .cons (.elem _ _ _) _ => true
  | .cons (.text _) cs => hasElemMember cs

/-! ## _remove_empty_tags (html_optimizer.py lines 69–99) -/

/-- The tag names eligible for empty-tag removal
(`removable_tags`, line 79). -/
def removableTags : List String :=
  ["span", "div", "p", "em", "strong", "i", "b", "u"]

/-- The removal condition of `_remove_empty_tags` on a single tag: a
removable tag name, no attributes (`bool(tag.attrs)`), no stripped text
(`tag.get_text(strip=True)`), and no element descendants
(`tag.find_all(True)`). -/
def isRemovableEmpty : HNode → Bool
  | .text _ => false
  | .elem tag attrs cs =>
    tag ∈ removableTags && attrs.isEmpty && (getTextStrip (.elem tag attrs cs) == "")
      && !(hasElemMember cs)

mutual
/-- `_remove_empty_tags`: the source repeats full-tree scans, decomposing
every tag satisfying `isRemovableEmpty`, until one scan removes nothing
(`while changed`).  Removing such a tag never disables another removal — it
deletes an element child whose whole subtree is whitespace text, so every
other node keeps its attribute count, loses no non-whitespace text, and can
only lose element children.  The loop's fixed point is therefore the unique
tree with no removable-empty node left, and a single bottom-up sweep (prune
the children of a node, then drop the children that have become
removable-empty) computes exactly that fixed point: after the sweep a
surviving node was inspected by its parent in fully-pruned form and found
ineligible.  The root (the `BeautifulSoup` document object) is never removed,
matching `find_all` which only yields descendants. -/
def pruneNode : HNode → HNode
  | .text s => .text s
  | .elem tag attrs cs => .elem tag attrs (pruneList cs)
  termination_by structural n => n

/-- The bottom-up sweep of `_remove_empty_tags` over a child list. -/
def pruneList : HNodeList → HNodeList
  | .nil => .nil
  | .cons c cs =>
    let c' := pruneNode c
    if isRemovableEmpty c' then pruneList cs else .cons c' (pruneList cs)
  termination_by structural l => l
end

/-! ## _simplify_nested_tags (html_optimizer.py lines 102–162) -/

/-- The tag names eligible for same-tag merging
(`simplifiable_tags`, line 111). -/
def simplifiableTags : List String :=
  ["p", "div", "span", "h1", "h2", "h3", "h4", "h5", "h6"]

/-- A whitespace-only text node: filtered out when counting the children of
a candidate outer tag, and skipped when walking to the next sibling. -/
def isWsText : HNode → Bool
  | .text s => pyStrip s == ""
  | .elem _ _ _ => false

/-- `non_whitespace_children` (lines 127–130): the children that are not
whitespace-only text runs, as an ordinary list for inspection. -/
def nonWsChildren : HNodeList → List HNode
  | .nil => []
  | .cons c cs => if isWsText c then nonWsChildren cs else c :: nonWsChildren cs

/-- `_merge_tag_attributes` (lines 165–181): walk the outer tag's attributes
in order; `class` lists are combined as a set union written back into the
inner tag's `class` slot; any other attribute is added only when the inner
tag does not already have it. -/
def mergeAttrInto (outer : Attrs) (inner : Attrs) : Attrs :=
  outer.foldl
    (fun acc p =>
      if p.1 == "class" then
        attrSet acc "class" (.toks (tokenUnion (valToks p.2) (optValToks (attrLookup "class" acc))))
      else if (attrLookup p.1 acc).isSome then acc
      else acc ++ [(p.1, p.2)])
    inner

mutual
/-- First pass of one `_simplify_nested_tags` iteration for one tag name
(lines 122–143): find, in document (pre-)order, the first tag named `t`
whose non-whitespace children are exactly one tag of the same name; merge
the outer attributes into that child and replace the outer tag by it
(`outer_tag.replace_with(inner_child)`), then stop (`break`).  `none` means
no such tag exists and the tree is unchanged.  `find_all` yields only
descendants of the soup object; the functions below also test the root node
itself, which is harmless because every concrete tree is rooted at the
`[document]`/`html`/`body` wrapper whose names are not in any tag list. -/
def tryNestedNode (t : String) : HNode → Option HNode
  | .text _ => none
  | .elem name attrs cs =>
    if name == t then
      match nonWsChildren cs with
      | [.elem innerName innerAttrs innerCs] =>
        if innerName == t then
          some (.elem t (mergeAttrInto attrs innerAttrs) innerCs)
        else
          (tryNestedList t cs).map (.elem name attrs ·)
      | _ => (tryNestedList t cs).map (.elem name attrs ·)
    else (tryNestedList t cs).map (.elem name attrs ·)
  termination_by structural n => n

/-- `tryNestedNode` over a child list: rewrite inside the first child whose
subtree contains a match. -/
def tryNestedList (t : String) : HNodeList → Option HNodeList
  | .nil => none
  | .cons c cs =>
    match tryNestedNode t c with
    | some c' => some (.cons c' cs)
    | none => (tryNestedList t cs).map (.cons c ·)
  termination_by structural l => l
end

/-- The first non-whitespace sibling (lines 152–155): skip whitespace text
runs; stop at the first tag or non-whitespace text run. -/
def firstNonWs : HNodeList → Option HNode
  | .nil => none
  | .cons c cs => if isWsText c then firstNonWs cs else some c

/-- `is_effectively_empty` (lines 147–150): no element descendants and no
stripped text. -/
def isEffectivelyEmpty (attrs : Attrs) (cs : HNodeList) : Bool :=
  !(hasElemMember cs) && (getTextStrip (.elem "" attrs cs) == "")

/-- Merge `outer`'s attributes into the first non-whitespace sibling (known
to be a tag when this is called); the whitespace runs before it stay in
place, as `tag.decompose()` removes only the tag itself. -/
def mergeIntoNextSib (outer : Attrs) : HNodeList → HNodeList
  | .nil => .nil
  | .cons (.text s) cs =>
    if pyStrip s == "" then .cons (.text s) (mergeIntoNextSib outer cs)
    else .cons (.text s) cs
  | .cons (.elem n a cc) cs => .cons (.elem n (mergeAttrInto outer a) cc) cs

/-- Whether the sibling-merge rule fires at the head of a child list: the
head is a tag named `t`, effectively empty, and its next non-whitespace
sibling is a tag of the same name (lines 146–162). -/
def sibRuleFires (t : String) (c : HNode) (rest : HNodeList) : Bool :=
  match c with
  | .elem name attrs cs =>
    name == t && isEffectivelyEmpty attrs cs &&
      (match firstNonWs rest with
       | some (.elem sibName _ _) => sibName == t
       | _ => false)
  | .text _ => false

mutual
/-- Second pass of one `_simplify_nested_tags` iteration for one tag name
(lines 145–162): find, in document order, the first tag named `t` that is
effectively empty and whose next non-whitespace sibling is a tag of the same
name; merge its attributes into that sibling and decompose it, then stop. -/
def trySibNode (t : String) : HNode → Option HNode
  | .text _ => none
  | .elem name attrs cs => (trySibList t cs).map (.elem name attrs ·)
  termination_by structural n => n

/-- `trySibNode` over a child list.  Document order checks a node before its
own subtree and its subtree before its later siblings. -/
def trySibList (t : String) : HNodeList → Option HNodeList
  | .nil => none
  | .cons c cs =>
    if sibRuleFires t c cs then
      match c with
      | .elem _ attrs _ => some (mergeIntoNextSib attrs cs)
      | .text _ => none
    else
      match trySibNode t c with
      | some c' => some (.cons c' cs)
      | none => (trySibList t cs).map (.cons c ·)
  termination_by structural l => l
end

/-- One tag name's share of a `while` iteration: the nested-merge pass then
the sibling-merge pass, each applying at most one rewrite, accumulating the
`changed` flag. -/
def tagStep (t : String) (acc : HNode × Bool) : HNode × Bool :=
  let acc1 :=
    match tryNestedNode t acc.1 with
    | some tr => (tr, true)
    | none => acc
  match trySibNode t acc1.1 with
  | some tr => (tr, true)
  | none => acc1

/-- One iteration of the `while changed` loop of `_simplify_nested_tags`
(lines 117–162): both passes for each tag name in `simplifiable_tags`
order, starting from `changed = False`. -/
def oneIteration (tree : HNode) : HNode × Bool :=
  simplifiableTags.foldl (fun acc t => tagStep t acc) (tree, false)

/-- The `while changed and iterations < max_iterations` loop, fuelled by the
remaining iteration budget: run one iteration; recurse while it reported a
change and budget remains. -/
def simplifyLoop : Nat → HNode → HNode
  | 0, t => t
  | fuel + 1, t =>
    let r := oneIteration t
    if r.2 then simplifyLoop fuel r.1 else r.1

/-- `_simplify_nested_tags` with its `max_iterations = 10` cap (line 115). -/
def simplifyTags (tree : HNode) : HNode :=
  simplifyLoop 10 tree

/-! ## optimize_html / extract_html_classes / validate_content_integrity -/

/-- `optimize_html` on the parsed soup (lines 29–35): `_remove_empty_tags`
then `_simplify_nested_tags`, both in place. -/
def optimizeSoup (soup : HNode) : HNode :=
  simplifyTags (pruneNode soup)

mutual
/-- Class tokens of every tag, in document order and with repetitions: what
`extract_html_classes` (lines 58–64) pours into its result set.  The guard
`if tag.get('class')` skips falsy values (no class attribute, or an empty
token list), which adds nothing to the set either way. -/
def classListNode : HNode → List String
  | .text _ => []
  | .elem _ attrs cs =>
    (match attrLookup "class" attrs with
     | some v => valToks v
     | none => []) ++ classListList cs
  termination_by structural n => n

/-- `classListNode` over a child list. -/
def classListList : HNodeList → List String
  | .nil => []
  | .cons c cs => classListNode c ++ classListList cs
  termination_by structural l => l
end

/-- `optimize_html` (lines 15–42).  The fragment string in/out signature is
kept; parsing and serialisation are the spec's external Tree
Parser/Serializer leaf and enter as function parameters.  The guard
`if not html or not html.strip(): return html` short-circuits before any
parsing. -/
def optimize_html (parse : String → HNode) (serialize : HNode → String)
    (html : String) : String :=
  if html == "" || pyStrip html == "" then html
  else serialize (optimizeSoup (parse html))

/-- `extract_html_classes` (lines 45–66), with the same guard and external
parser; the Python result set is embedded as the token list read through
membership. -/
def extract_html_classes (parse : String → HNode) (html : String) : List String :=
  if html == "" || pyStrip html == "" then []
  else classListNode (parse html)

/-- `validate_content_integrity` (lines 184–204): `True` when both strings
are empty (falsy), otherwise compare `get_text(strip=True)` of the two
parsed fragments. -/
def validate_content_integrity (parse : String → HNode)
    (original_html optimized_html : String) : Bool :=
  if original_html == "" && optimized_html == "" then true
  else getTextStrip (parse original_html) == getTextStrip (parse optimized_html)

/-- The visible text as the claim about `validate_content_integrity` words
it: concatenate all raw text runs in descendant order, then trim the whole
concatenation once.  Stated from the claim's words, for comparison with the
per-run-stripping `getTextStrip` the source uses. -/
def wholeTrimmedText (n : HNode) : String :=
  pyStrip (String.join (rawTexts n))

mutual
/-- Number of element nodes of a tree: an observable separating trees. -/
def elemCount : HNode → Nat
  | .text _ => 0
  | .elem _ _ cs => 1 + elemCountList cs
  termination_by structural n => n

/-- `elemCount` over a child list. -/
def elemCountList : HNodeList → Nat
  | .nil => 0
  | .cons c cs => elemCount c + elemCountList cs
  termination_by structural l => l
end

/-! ## Style/class allow-list cleaner -/

/-- Allow-list filtering of one tag's attributes.
Modelled from the spec: the controller imports
`cleanup_html_styles_and_classes` from `preprocessor.models.html_optimizer`
(preprocess_controller.py line 18), but the function's definition is absent
from the sources; spec §4.7 specifies it.  Per that contract: remove every
`style` attribute unconditionally; for `class`, keep only the tokens present
in `allowedClasses` and drop the attribute entirely when no token survives;
pass every other attribute through unchanged (sequence order preserved). -/
def cleanupAttrs (allowed : List String) (attrs : Attrs) : Attrs :=
  attrs.foldr
    (fun p acc =>
      if p.1 == "style" then acc
      else if p.1 == "class" then
        let kept := (valToks p.2).filter (fun tok => tok ∈ allowed)
        if kept.isEmpty then acc else (p.1, .toks kept) :: acc
      else p :: acc)
    []

mutual
/-- Modelled from the spec: the tree-wide walk of
`cleanup_html_styles_and_classes` (absent from the sources, spec §4.7);
applies `cleanupAttrs` to every tag and leaves text runs and tree structure
untouched. -/
def cleanupNode (allowed : List String) : HNode → HNode
  | .text s => .text s
  | .elem tag attrs cs => .elem tag (cleanupAttrs allowed attrs) (cleanupList allowed cs)
  termination_by structural n => n

/-- `cleanupNode` over a child list. -/
def cleanupList (allowed : List String) : HNodeList → HNodeList
  | .nil => .nil
  | .cons c cs => .cons (cleanupNode allowed c) (cleanupList allowed cs)
  termination_by structural l => l
end

mutual
/-- No tag of the tree carries a `style` attribute. -/
def noStyleNode : HNode → Bool
  | .text _ => true
  | .elem _ attrs cs => (attrLookup "style" attrs).isNone && noStyleList cs
  termination_by structural n => n

/-- `noStyleNode` over a child list. -/
def noStyleList : HNodeList → Bool
  | .nil => true
  | .cons c cs => noStyleNode c && noStyleList cs
  termination_by structural l => l
end

/-! ## Concrete inputs used by the scenario claims -/

/-- The soup wrapper the lxml parser puts around a fragment:
`BeautifulSoup(html, 'lxml')` yields `[document] → html → body → fragment
children`. -/
def mkSoup (children : HNodeList) : HNode :=
  .elem "[document]" []
    (.cons (.elem "html" [] (.cons (.elem "body" [] children) .nil)) .nil)

/-- The lxml parse of `'<p class="c1"><p class="c2">hello</p></p>'`.  HTML
forbids nesting `p` elements: a `<p>` start tag implicitly closes the open
`<p>` (libxml2 follows this rule), so the fragment parses as two *sibling*
paragraphs — the first empty with class `c1`, the second holding the text
with class `c2`.  (The repository's own
`test/test_html_optimization_standalone.py::test_simplify_nested_p_tags`
exercises the same markup and expects a single merged `<p>` in the output.) -/
def c6soup : HNode :=
  mkSoup (.cons (.elem "p" [("class", .toks ["c1"])] .nil)
    (.cons (.elem "p" [("class", .toks ["c2"])] (.cons (.text "hello") .nil)) .nil))

/-- A tower of `k` nested `div` elements around the text `hello` (`div` nests
legally in HTML, unlike `p`). -/
def nestDiv : Nat → HNode
  | 0 => .text "hello"
  | k + 1 => .elem "div" [] (.cons (nestDiv k) .nil)

/-- The soup of a fragment of 12 nested `div`s: collapsing it needs 11
merges, one more than the 10-iteration cap of `_simplify_nested_tags`
performs in one call. -/
def d12soup : HNode := mkSoup (.cons (nestDiv 12) .nil)

/-- The lxml parse of the two fragments of the `validate_content_integrity`
counterexample: `'<p>a b</p>'` and `'<p>a </p><p>b</p>'` (any other string is
irrelevant to the closed statement and maps to an empty soup).  Parsing is
the spec's external Tree Parser leaf; this is its behaviour on these two
inputs. -/
def parseValidatePair : String → HNode
  | "<p>a b</p>" => mkSoup (.cons (.elem "p" [] (.cons (.text "a b") .nil)) .nil)
  | "<p>a </p><p>b</p>" =>
    mkSoup (.cons (.elem "p" [] (.cons (.text "a ") .nil))
      (.cons (.elem "p" [] (.cons (.text "b") .nil)) .nil))
  | _ => mkSoup .nil

/-- Shorthand for the extension dictionary of an annotation with element
class `k` and an empty concept, as `HtmlElementLink.to_dict` writes it. -/
def annDict (k : String) : ExtDict :=
  (HtmlElementLink.mk (some k) {}).to_dict

/-- A composition holding annotations for element classes `a` and `b`: the
failing input of the reconciliation claim. -/
def compAB : CompositionDict :=
  { extension := some [annDict "a", annDict "b"] }

/-- A composition holding one annotation for element class `a`, stored (as
the manager stores every annotation) under
`HtmlElementLink.STRUCTURE_DEFINITION_URL`. -/
def compA : CompositionDict :=
  { extension := some [annDict "a"] }

/-- A composition holding duplicate annotations: two with element class `a`
and one with `b`. -/
def compDup : CompositionDict :=
  { extension := some [annDict "a", annDict "a", annDict "b"] }

/-- The concept of the annotation round-trip counterexample: one coding
whose `system` is the *empty string* (present but falsy). -/
def emptySystemConcept : CodeableReference :=
  { codings := [{ system := some "" }] }

/-- The composition produced by adding the counterexample concept under key
`a` to an empty composition. -/
def compC7 : CompositionDict :=
  { extension := some [(HtmlElementLink.mk (some "a") emptySystemConcept).to_dict] }

/-! ## Theorems -/

/-- C1: evaluation of the reconciliation pass at the claim's own scenario
(annotation keys `{a, b}`, usage set `{a}`).  The claim says the call does
not raise and returns `{total:2, removed:1, kept:1}`; the code instead
raises `TypeError` at `extension_classes - html_classes`
(html_element_link_cleanup.py line 51), because `get_element_classes`
returns a list and a Python list cannot be subtracted by a set. -/
theorem cleanup_unused_html_element_links_raises_on_compAB :
    cleanup_unused_html_element_links compAB ["a"] =
      .error (.typeError "unsupported operand type(s) for -: 'list' and 'set'") := rfl

/-- C3: the allow-list the style-cleanup step of `_apply_preprocessing`
computes for a composition holding one HtmlElementLink annotation with
element class `a` is empty, while the annotation store lists `a` — the
controller matches extensions against the `hl7.org` url instead of
`HtmlElementLink.STRUCTURE_DEFINITION_URL` (`hl7.eu`), so no real annotation
ever contributes to the allow-list. -/
theorem walkerAllowedClasses_misses_annotations :
    walkerAllowedClasses compA = [] ∧ get_element_classes compA = ["a"] :=
  ⟨rfl, rfl⟩

/-- C6: `optimize_html` on the parse of
`'<p class="c1"><p class="c2">hello</p></p>'` produces a single `p` whose
class tokens are exactly `{c1, c2}` and whose text is `hello`.  Under lxml
the fragment parses as two sibling paragraphs (`c6soup`); the empty first
one is sibling-merged into the second by `_simplify_nested_tags`. -/
theorem optimize_nested_p_scenario :
    ∃ cls : List String,
      optimizeSoup c6soup =
        mkSoup (.cons (.elem "p" [("class", .toks cls)] (.cons (.text "hello") .nil)) .nil) ∧
      cls.toFinset = ({"c1", "c2"} : Finset String) :=
  ⟨["c1", "c2"], rfl, by decide⟩

/-- C5 counterexample: the nesting-collapse pass is not idempotent on a
fragment of 12 nested `div`s — one call stops at the 10-iteration cap with
two `div`s left (element count 5 with the soup wrapper), and a second call
merges once more (element count 4). -/
theorem simplifyTags_not_idempotent_on_d12soup :
    simplifyTags (simplifyTags d12soup) ≠ simplifyTags d12soup :=
  fun h => absurd (congrArg elemCount h) (by decide)

/-- C4 counterexample: `validate_content_integrity` compares per-text-run
stripped text, not the whole concatenation trimmed once.  On
`'<p>a b</p>'` versus `'<p>a </p><p>b</p>'` the whole-concatenation-trimmed
texts agree (`"a b"`), yet the function returns `false` (it compares
`"a b"` with `"ab"`), refuting the claimed if-and-only-if. -/
theorem validate_content_integrity_not_whole_trim :
    validate_content_integrity parseValidatePair "<p>a b</p>" "<p>a </p><p>b</p>" = false ∧
      wholeTrimmedText (parseValidatePair "<p>a b</p>") =
        wholeTrimmedText (parseValidatePair "<p>a </p><p>b</p>") :=
  ⟨rfl, rfl⟩

/-- C7 counterexample: the add-then-get round trip fails when a coding field
is present but empty.  Adding key `a` with concept
`[Coding(system="")]` succeeds, but `get` returns the annotation with
`system=None` (`to_dict` drops falsy fields and `from_dict` cannot restore
them), which Python's `==` distinguishes from the added one. -/
theorem add_get_roundtrip_fails_on_empty_system :
    add_html_element_link { extension := none } "a" emptySystemConcept false =
        .ok (true, compC7) ∧
      get_html_element_link compC7 "a" ≠
        some (HtmlElementLink.mk (some "a") emptySystemConcept) :=
  ⟨rfl, by decide⟩

/-- C9: on an empty or all-whitespace fragment (for any parser and
serializer, which the guards short-circuit), `extract_html_classes` returns
the empty set, `optimize_html` returns the input unchanged, and
`validate_content_integrity` between the input and its optimization returns
true; every code path taken is total (no raise). -/
theorem empty_fragment_noop :
    ∀ (parse : String → HNode) (serialize : HNode → String) (x : String),
      pyStrip x = "" →
      extract_html_classes parse x = [] ∧
        optimize_html parse serialize x = x ∧
        validate_content_integrity parse x (optimize_html parse serialize x) = true := by
  intro parse serialize x h
  have hg : (x == "" || pyStrip x == "") = true := by simp [h]
  have hopt : optimize_html parse serialize x = x := by
    simp [optimize_html, hg]
  refine ⟨by simp [extract_html_classes, hg], hopt, ?_⟩
  rw [hopt]
  by_cases hx : x = ""
  · subst hx; simp [validate_content_integrity]
  · simp [validate_content_integrity, hx]

/-- Witness for C9 at the all-whitespace fragment `" "` with a trivial
external parser/serializer pair. -/
theorem empty_fragment_noop_witness :
    extract_html_classes (fun _ => .text "") " " = [] ∧
      optimize_html (fun _ => .text "") (fun _ => "") " " = " " ∧
      validate_content_integrity (fun _ => .text "") " "
        (optimize_html (fun _ => .text "") (fun _ => "") " ") = true :=
  empty_fragment_noop (fun _ => .text "") (fun _ => "") " " (by decide)

mutual
/-- The stripped runs `get_text(strip=True)` concatenates are exactly the
raw runs individually stripped with the whitespace-only ones dropped. -/
theorem stripTexts_eq_perRun :
    (n : HNode) → stripTexts n = ((rawTexts n).map pyStrip).filter (fun s => !(s == ""))
  | .text s => by
    by_cases h : pyStrip s = "" <;> simp [stripTexts, rawTexts, h]
  | .elem _ _ cs => by
    simp [stripTexts, rawTexts, stripTextsList_eq_perRun cs]
  termination_by structural n => n

/-- `stripTexts_eq_perRun` over a child list. -/
theorem stripTextsList_eq_perRun :
    (l : HNodeList) →
      stripTextsList l = ((rawTextsList l).map pyStrip).filter (fun s => !(s == ""))
  | .nil => rfl
  | .cons c cs => by
    simp [stripTextsList, rawTextsList, stripTexts_eq_perRun c, stripTextsList_eq_perRun cs]
  termination_by structural l => l
end

/-- C4, amended: `validate_content_integrity(original, optimized)` returns
true iff both inputs are empty strings, or the visible texts agree where the
visible text of a fragment is the concatenation of its text runs in
descendant order *each trimmed individually* (whitespace-only runs dropped)
— not trimmed once on the whole concatenation. -/
theorem validate_content_integrity_iff_perRun_text :
    ∀ (parse : String → HNode) (o p : String),
      validate_content_integrity parse o p = true ↔
        ((o = "" ∧ p = "") ∨
          String.join (((rawTexts (parse o)).map pyStrip).filter (fun s => !(s == ""))) =
            String.join (((rawTexts (parse p)).map pyStrip).filter (fun s => !(s == "")))) := by
  intro parse o p
  rcases hg : (o == "" && p == "") with _ | _
  · have hng : ¬(o = "" ∧ p = "") := by
      rintro ⟨rfl, rfl⟩; simp at hg
    simp only [validate_content_integrity, hg, if_false, Bool.false_eq_true]
    rw [getTextStrip, getTextStrip, stripTexts_eq_perRun, stripTexts_eq_perRun]
    simp [hng]
  · have ho : o = "" := by
      have := (Bool.and_eq_true _ _).mp hg
      exact (beq_iff_eq).mp this.1
    have hp : p = "" := by
      have := (Bool.and_eq_true _ _).mp hg
      exact (beq_iff_eq).mp this.2
    subst ho; subst hp
    simp [validate_content_integrity]

mutual
/-- The bottom-up empty-tag sweep is idempotent on nodes. -/
theorem pruneNode_idem : (n : HNode) → pruneNode (pruneNode n) = pruneNode n
  | .text _ => rfl
  | .elem tag attrs cs => by
    simp [pruneNode, pruneList_idem cs]
  termination_by structural n => n

/-- The bottom-up empty-tag sweep is idempotent on child lists. -/
theorem pruneList_idem : (l : HNodeList) → pruneList (pruneList l) = pruneList l
  | .nil => rfl
  | .cons c cs => by
    rcases h : isRemovableEmpty (pruneNode c) with _ | _
    · simp [pruneList, h, pruneNode_idem c, pruneList_idem cs]
    · simp [pruneList, h, pruneList_idem cs]
  termination_by structural l => l
end

/-- When one tag's step of a `_simplify_nested_tags` iteration ends with the
`changed` flag down, neither of its passes rewrote anything: the tree and the
incoming flag are untouched. -/
theorem tagStep_unchanged (t : String) (acc : HNode × Bool)
    (h : (tagStep t acc).2 = false) : tagStep t acc = acc ∧ acc.2 = false := by
  unfold tagStep at h ⊢
  rcases hn : tryNestedNode t acc.1 with _ | tr
  · rcases hs : trySibNode t acc.1 with _ | tr'
    · simp [hn, hs] at h ⊢
      exact h
    · simp [hn, hs] at h
  · rcases hs : trySibNode t tr with _ | tr'
    · simp [hn, hs] at h
    · simp [hn, hs] at h

/-- When a whole fold of tag steps ends with the `changed` flag down, it
left the accumulator untouched and started with the flag down. -/
theorem foldTagSteps_unchanged :
    ∀ (tags : List String) (acc : HNode × Bool),
      (tags.foldl (fun a t => tagStep t a) acc).2 = false →
      tags.foldl (fun a t => tagStep t a) acc = acc ∧ acc.2 = false := by
  intro tags
  induction tags with
  | nil => intro acc h; exact ⟨rfl, h⟩
  | cons tg rest ih =>
    intro acc h
    simp only [List.foldl_cons] at h ⊢
    obtain ⟨hfold, hstep⟩ := ih (tagStep tg acc) h
    obtain ⟨hacc, hflag⟩ := tagStep_unchanged tg acc hstep
    exact ⟨by rw [hfold, hacc], hflag⟩

/-- An iteration of `_simplify_nested_tags` that reports no change leaves
the tree untouched. -/
theorem oneIteration_unchanged (tree : HNode) (h : (oneIteration tree).2 = false) :
    (oneIteration tree).1 = tree := by
  have := foldTagSteps_unchanged simplifiableTags (tree, false) h
  rw [oneIteration, this.1]

/-- One unfolding of the fuelled `while` loop of `_simplify_nested_tags`. -/
theorem simplifyLoop_succ (fuel : Nat) (t : HNode) :
    simplifyLoop (fuel + 1) t =
      (if (oneIteration t).2 then simplifyLoop fuel (oneIteration t).1
       else (oneIteration t).1) := rfl

/-- C5, amended: the empty-tag pruning pass is idempotent on every tree;
the nesting-collapse pass run twice equals once on every tree whose first
run reaches its fixed point within the 10-iteration cap (the run ends with
an iteration that reports no change) — when the cap cuts the run short a
second run can still change the tree, as
`simplifyTags_not_idempotent_on_d12soup` shows. -/
theorem prune_and_collapse_idempotence :
    (∀ n : HNode, pruneNode (pruneNode n) = pruneNode n) ∧
      (∀ n : HNode, (oneIteration (simplifyTags n)).2 = false →
        simplifyTags (simplifyTags n) = simplifyTags n) := by
  refine ⟨pruneNode_idem, ?_⟩
  intro n h
  show simplifyLoop 10 (simplifyTags n) = simplifyTags n
  have h10 : (10 : Nat) = 9 + 1 := rfl
  rw [h10, simplifyLoop_succ, h, if_neg (by simp), oneIteration_unchanged _ h]

/-- Witness for C5 (amended) at the one-text-run tree. -/
theorem prune_and_collapse_idempotence_witness :
    pruneNode (pruneNode (.text "w")) = pruneNode (.text "w") ∧
      simplifyTags (simplifyTags (.text "w")) = simplifyTags (.text "w") :=
  ⟨prune_and_collapse_idempotence.1 (.text "w"),
   prune_and_collapse_idempotence.2 (.text "w") (by decide)⟩

/-- `attrLookup` on a non-empty attribute list. -/
theorem attrLookup_cons (nm : String) (q : String × AttrVal) (l : Attrs) :
    attrLookup nm (q :: l) = if q.1 == nm then some q.2 else attrLookup nm l := by
  unfold attrLookup
  cases h : (q.1 == nm) <;> simp [List.find?, h]

/-- The allow-list cleaner leaves no `style` attribute in a cleaned
attribute list. -/
theorem cleanupAttrs_no_style (allowed : List String) :
    ∀ attrs : Attrs, attrLookup "style" (cleanupAttrs allowed attrs) = none := by
  intro attrs
  induction attrs with
  | nil => rfl
  | cons p rest ih =>
    simp only [cleanupAttrs, List.foldr_cons] at ih ⊢
    split_ifs with h1 h2 h3
    · exact ih
    · exact ih
    · rw [attrLookup_cons]
      simp only [show (p.1 == "style") = false by simpa using h1]
      simpa using ih
    · rw [attrLookup_cons]
      simp only [show (p.1 == "style") = false by simpa using h1]
      simpa using ih

/-- Every token of the `class` attribute of a cleaned attribute list is in
the allow-list. -/
theorem cleanupAttrs_class_subset (allowed : List String) :
    ∀ (attrs : Attrs) (v : AttrVal),
      attrLookup "class" (cleanupAttrs allowed attrs) = some v →
      ∀ tok ∈ valToks v, tok ∈ allowed := by
  intro attrs
  induction attrs with
  | nil => intro v hv; simp [cleanupAttrs, attrLookup, List.find?] at hv
  | cons p rest ih =>
    intro v hv tok htok
    simp only [cleanupAttrs, List.foldr_cons] at hv ih
    rcases hsty : (p.1 == "style") with _ | _
    · rcases hcls : (p.1 == "class") with _ | _
      · rw [if_neg (by simp [hsty]), if_neg (by simp [hcls]), attrLookup_cons] at hv
        rw [show (p.1 == "class") = false from hcls] at hv
        simp only [Bool.false_eq_true, if_false] at hv
        exact ih v hv tok htok
      · rw [if_neg (by simp [hsty]), if_pos (by simp [hcls])] at hv
        rcases hk : ((valToks p.2).filter (fun t => decide (t ∈ allowed))).isEmpty with _ | _
        · rw [if_neg (by simp [hk])] at hv
          rw [attrLookup_cons, show (p.1 == "class") = true from hcls] at hv
          simp only [if_true] at hv
          cases hv
          simp only [valToks] at htok
          have hmem := List.mem_filter.mp htok
          exact of_decide_eq_true hmem.2
        · rw [if_pos (by simp [hk])] at hv
          exact ih v hv tok htok
    · rw [if_pos (by simp [hsty])] at hv
      exact ih v hv tok htok

/-- The allow-list cleaner passes every attribute other than `style` and
`class` through unchanged. -/
theorem cleanupAttrs_other_preserved (allowed : List String) :
    ∀ (attrs : Attrs) (nm : String), nm ≠ "style" → nm ≠ "class" →
      attrLookup nm (cleanupAttrs allowed attrs) = attrLookup nm attrs := by
  intro attrs
  induction attrs with
  | nil => intro nm _ _; rfl
  | cons p rest ih =>
    intro nm hns hnc
    simp only [cleanupAttrs, List.foldr_cons]
    rcases hsty : (p.1 == "style") with _ | _
    · rcases hcls : (p.1 == "class") with _ | _
      · rw [if_neg (by simp [hsty]), if_neg (by simp [hcls]), attrLookup_cons, attrLookup_cons]
        cases hpn : (p.1 == nm)
        · simp only [Bool.false_eq_true, if_false]
          exact ih nm hns hnc
        · simp
      · have hp1 : p.1 = "class" := by simpa using hcls
        rw [if_neg (by simp [hsty]), if_pos (by simp [hcls])]
        have hhead : (p.1 == nm) = false := by
          rw [hp1]; exact beq_eq_false_iff_ne.mpr (Ne.symm hnc)
        rcases hk : ((valToks p.2).filter (fun t => decide (t ∈ allowed))).isEmpty with _ | _
        · rw [if_neg (by simp [hk]), attrLookup_cons, attrLookup_cons]
          rw [show (p.1 == nm) = false from hhead]
          simp only [Bool.false_eq_true, if_false]
          exact ih nm hns hnc
        · rw [if_pos (by simp [hk]), attrLookup_cons]
          rw [show (p.1 == nm) = false from hhead]
          simp only [Bool.false_eq_true, if_false]
          exact ih nm hns hnc
    · have hp1 : p.1 = "style" := by simpa using hsty
      have hhead : (p.1 == nm) = false := by
        rw [hp1]; exact beq_eq_false_iff_ne.mpr (Ne.symm hns)
      rw [if_pos (by simp [hsty]), attrLookup_cons]
      rw [show (p.1 == nm) = false from hhead]
      simp only [Bool.false_eq_true, if_false]
      exact ih nm hns hnc

mutual
/-- No tag of a cleaned tree carries a `style` attribute. -/
theorem cleanupNode_noStyle (allowed : List String) :
    (n : HNode) → noStyleNode (cleanupNode allowed n) = true
  | .text _ => rfl
  | .elem tag attrs cs => by
    simp [cleanupNode, noStyleNode, cleanupAttrs_no_style allowed attrs,
      cleanupList_noStyle allowed cs]
  termination_by structural n => n

/-- `cleanupNode_noStyle` over a child list. -/
theorem cleanupList_noStyle (allowed : List String) :
    (l : HNodeList) → noStyleList (cleanupList allowed l) = true
  | .nil => rfl
  | .cons c cs => by
    simp [cleanupList, noStyleList, cleanupNode_noStyle allowed c,
      cleanupList_noStyle allowed cs]
  termination_by structural l => l
end

mutual
/-- Every class token left anywhere in a cleaned tree is in the allow-list. -/
theorem cleanupNode_classes_subset (allowed : List String) :
    (n : HNode) → ∀ tok ∈ classListNode (cleanupNode allowed n), tok ∈ allowed
  | .text _ => by intro tok h; simp [cleanupNode, classListNode] at h
  | .elem tag attrs cs => by
    intro tok h
    simp only [cleanupNode, classListNode, List.mem_append] at h
    rcases h with h | h
    · rcases hcl : attrLookup "class" (cleanupAttrs allowed attrs) with _ | v
      · rw [hcl] at h; simp at h
      · rw [hcl] at h
        exact cleanupAttrs_class_subset allowed attrs v hcl tok h
    · exact cleanupList_classes_subset allowed cs tok h
  termination_by structural n => n

/-- `cleanupNode_classes_subset` over a child list. -/
theorem cleanupList_classes_subset (allowed : List String) :
    (l : HNodeList) → ∀ tok ∈ classListList (cleanupList allowed l), tok ∈ allowed
  | .nil => by intro tok h; simp [cleanupList, classListList] at h
  | .cons c cs => by
    intro tok h
    simp only [cleanupList, classListList, List.mem_append] at h
    rcases h with h | h
    · exact cleanupNode_classes_subset allowed c tok h
    · exact cleanupList_classes_subset allowed cs tok h
  termination_by structural l => l
end

/-- C2: the allow-list cleaner leaves no `style` attribute anywhere, keeps
only class tokens belonging to the allow-list (so the extracted classes of a
cleaned tree are a subset of the allow-list), passes every other attribute
through unchanged, and on the tree of
`'<div class="a b" style="color:red">x</div>'` with allow-list `{a}`
produces the tree of `'<div class="a">x</div>'`. -/
theorem cleanup_styles_and_classes_closure :
    (∀ (allowed : List String) (n : HNode),
        noStyleNode (cleanupNode allowed n) = true) ∧
      (∀ (allowed : List String) (n : HNode),
        ∀ tok ∈ classListNode (cleanupNode allowed n), tok ∈ allowed) ∧
      (∀ (allowed : List String) (attrs : Attrs) (nm : String),
        nm ≠ "style" → nm ≠ "class" →
        attrLookup nm (cleanupAttrs allowed attrs) = attrLookup nm attrs) ∧
      cleanupNode ["a"]
          (.elem "div" [("class", .toks ["a", "b"]), ("style", .str "color:red")]
            (.cons (.text "x") .nil)) =
        .elem "div" [("class", .toks ["a"])] (.cons (.text "x") .nil) :=
  ⟨cleanupNode_noStyle, cleanupNode_classes_subset,
   cleanupAttrs_other_preserved, rfl⟩

/-- Witness for C2: the three universal clauses instantiated at the concrete
div of the claim's scenario (and at an `id` attribute for the pass-through
clause). -/
theorem cleanup_styles_and_classes_closure_witness :
    noStyleNode (cleanupNode ["a"]
        (.elem "div" [("class", .toks ["a", "b"]), ("style", .str "color:red")]
          (.cons (.text "x") .nil))) = true ∧
      "a" ∈ (["a"] : List String) ∧
      attrLookup "id" (cleanupAttrs ["a"] [("id", .str "t"), ("style", .str "x")]) =
        attrLookup "id" [("id", .str "t"), ("style", .str "x")] :=
  ⟨cleanup_styles_and_classes_closure.1 ["a"] _,
   cleanup_styles_and_classes_closure.2.1 ["a"]
     (.elem "div" [("class", .toks ["a", "b"]), ("style", .str "color:red")]
       (.cons (.text "x") .nil)) "a" (by decide),
   cleanup_styles_and_classes_closure.2.2.1 ["a"] [("id", .str "t"), ("style", .str "x")]
     "id" (by decide) (by decide)⟩

/-- The truthiness guard of `to_dict` is the identity on fields that are not
the (falsy) empty string. -/
theorem truthy_guard_id (s : Option String) (h : s ≠ some "") :
    (if strTruthy s then s else none) = s := by
  rcases s with _ | v
  · rfl
  · have hv : v ≠ "" := fun he => h (by rw [he])
    simp [strTruthy, hv]

/-- `Coding.from_dict` undoes `Coding.to_dict` when no field holds the empty
string. -/
theorem coding_roundtrip (cd : Coding) (h1 : cd.system ≠ some "")
    (h2 : cd.code ≠ some "") (h3 : cd.display ≠ some "") :
    Coding.from_dict cd.to_dict = cd := by
  unfold Coding.from_dict Coding.to_dict
  cases cd
  simp_all [truthy_guard_id]

/-- Mapping `from_dict` after `to_dict` over a coding list with no
empty-string field is the identity. -/
theorem codings_map_roundtrip :
    ∀ l : List Coding,
      (∀ cd ∈ l, cd.system ≠ some "" ∧ cd.code ≠ some "" ∧ cd.display ≠ some "") →
      (l.map Coding.to_dict).map Coding.from_dict = l := by
  intro l hc
  induction l with
  | nil => rfl
  | cons cd rest ih =>
    have hcd := hc cd (List.mem_cons_self cd rest)
    simp only [List.map_cons]
    rw [coding_roundtrip cd hcd.1 hcd.2.1 hcd.2.2,
      ih (fun x hx => hc x (List.mem_cons_of_mem cd hx))]

/-- `CodeableReference.from_dict` undoes `CodeableReference.to_dict` when no
coding field holds the empty string. -/
theorem codeable_reference_roundtrip (c : CodeableReference)
    (hc : ∀ cd ∈ c.codings,
      cd.system ≠ some "" ∧ cd.code ≠ some "" ∧ cd.display ≠ some "") :
    CodeableReference.from_dict c.to_dict = c := by
  unfold CodeableReference.from_dict CodeableReference.to_dict
  simp only [Option.getD_some]
  rw [codings_map_roundtrip c.codings hc]

/-- Parsing the dictionary `to_dict` writes for a link with non-empty key
recovers the key and the dict round trip of the concept. -/
theorem link_roundtrip (k : String) (c : CodeableReference) (hk : k ≠ "") :
    HtmlElementLink.from_dict ((HtmlElementLink.mk (some k) c).to_dict) =
      ⟨some k, CodeableReference.from_dict c.to_dict⟩ := by
  have hkb : (k == "") = false := beq_eq_false_iff_ne.mpr hk
  simp [HtmlElementLink.from_dict, HtmlElementLink.to_dict, strTruthy, hkb,
    lastElementClassVal, lastConceptVal]

/-- The element-class scan of `HtmlElementLink.from_dict` either keeps its
accumulator or returns the `valueString` of some inner entry whose url is
`elementClass`. -/
theorem lastElementClassVal_cases :
    ∀ (l : List SubExt) (acc : Option String),
      lastElementClassVal l acc = acc ∨
        ∃ e ∈ l, (e.url == some "elementClass") = true ∧
          lastElementClassVal l acc = e.valueString := by
  intro l
  induction l with
  | nil => intro acc; exact Or.inl rfl
  | cons e es ih =>
    intro acc
    rcases he : (e.url == some "elementClass") with _ | _
    · have hne : e.url ≠ some "elementClass" := by simpa using he
      have hstep : lastElementClassVal (e :: es) acc = lastElementClassVal es acc := by
        simp [lastElementClassVal, hne]
      rcases ih acc with h | ⟨e', he', hu', hv'⟩
      · exact Or.inl (by rw [hstep, h])
      · exact Or.inr ⟨e', List.mem_cons_of_mem e he', hu', by rw [hstep, hv']⟩
    · have heq : e.url = some "elementClass" := by simpa using he
      have hstep : lastElementClassVal (e :: es) acc =
          lastElementClassVal es e.valueString := by
        simp [lastElementClassVal, heq]
      rcases ih e.valueString with h | ⟨e', he', hu', hv'⟩
      · exact Or.inr ⟨e, List.mem_cons_self e es, he, by rw [hstep, h]⟩
      · exact Or.inr ⟨e', List.mem_cons_of_mem e he', hu', by rw [hstep, hv']⟩

/-- If a parsed link carries element class `k`, some inner entry of the raw
extension dictionary has url `elementClass` and value `k` — i.e. the
extension satisfies the removal predicate's inner `any`. -/
theorem from_dict_key_has_match (ext : ExtDict) (k : String)
    (h : (HtmlElementLink.from_dict ext).element_class = some k) :
    ext.extension.any
      (fun e => e.url == some "elementClass" && e.valueString == some k) = true := by
  have h' : lastElementClassVal ext.extension none = some k := h
  rcases lastElementClassVal_cases ext.extension none with hacc | ⟨e, hmem, hurl, hval⟩
  · rw [hacc] at h'; cases h'
  · rw [hval] at h'
    exact List.any_eq_true.mpr ⟨e, hmem, by simp [hurl, h']⟩

/-- After `remove_html_element_link comp k`, no listed link of the result
carries element class `k` (the removal predicate subsumes the parsed key). -/
theorem remove_no_key (comp : CompositionDict) (k : String) :
    ∀ l ∈ list_html_element_links ((remove_html_element_link comp k).2),
      (l.element_class == some k) = false := by
  intro l hl
  rcases hext : comp.extension with _ | exts
  · rw [remove_html_element_link, hext] at hl
    simp [list_html_element_links, hext] at hl
  · rw [remove_html_element_link, hext] at hl
    simp only [list_html_element_links, Option.getD_some] at hl
    rw [List.mem_map] at hl
    obtain ⟨ext, hmem, rfl⟩ := hl
    rw [List.mem_filter] at hmem
    obtain ⟨hmem2, hurl⟩ := hmem
    rw [List.mem_filter] at hmem2
    obtain ⟨_, hnotmatch⟩ := hmem2
    rcases hkey : ((HtmlElementLink.from_dict ext).element_class == some k) with _ | _
    · rfl
    · exfalso
      have hkeq : (HtmlElementLink.from_dict ext).element_class = some k :=
        beq_iff_eq.mp hkey
      have hany := from_dict_key_has_match ext k hkeq
      have hmk : extMatchesKey ext k = true := by
        unfold extMatchesKey
        rw [hurl, hany]
        rfl
      simp [hmk] at hnotmatch

/-- `find?` skips a prefix in which nothing satisfies the predicate. -/
theorem find?_append_of_left_none {α : Type} (l1 l2 : List α) (p : α → Bool)
    (h : l1.find? p = none) : (l1 ++ l2).find? p = l2.find? p := by
  induction l1 with
  | nil => rfl
  | cons a l ih =>
    rcases ha : p a with _ | _
    · rw [List.cons_append, List.find?_cons_of_neg _ (by simp [ha])]
      rw [List.find?_cons_of_neg _ (by simp [ha])] at h
      exact ih h
    · rw [List.find?_cons_of_pos _ ha] at h
      cases h

/-- `find?` returns the head of the filtered list: the first match in list
order. -/
theorem find?_eq_head?_filter {α : Type} (p : α → Bool) :
    ∀ l : List α, l.find? p = (l.filter p).head? := by
  intro l
  induction l with
  | nil => rfl
  | cons a rest ih =>
    rcases ha : p a with _ | _
    · rw [List.find?_cons_of_neg _ (by simp [ha]), List.filter_cons_of_neg (by simp [ha])]
      exact ih
    · rw [List.find?_cons_of_pos _ ha, List.filter_cons_of_pos ha]
      rfl

/-- C7, amended: for every composition, non-empty key `k` and concept whose
coding fields are each absent or non-empty (never the present-but-empty
string the dict round trip drops), a successful
`add_html_element_link(comp, k, c)` (default flags) makes
`get_html_element_link` return exactly the added annotation — same element
class, same coding list in order; and after `remove_html_element_link`,
`get_html_element_link` returns absent, for every composition and key. -/
theorem annotation_store_roundtrip :
    (∀ (comp : CompositionDict) (k : String) (c : CodeableReference)
        (comp' : CompositionDict),
      (∀ cd ∈ c.codings,
        cd.system ≠ some "" ∧ cd.code ≠ some "" ∧ cd.display ≠ some "") →
      add_html_element_link comp k c false = .ok (true, comp') →
      get_html_element_link comp' k = some ⟨some k, c⟩) ∧
    (∀ (comp : CompositionDict) (k : String),
      get_html_element_link ((remove_html_element_link comp k).2) k = none) := by
  constructor
  · intro comp k c comp' hc hadd
    rcases hk : (k == "") with _ | _
    · rcases hget : get_html_element_link comp k with _ | lnk
      · rw [add_html_element_link, hk] at hadd
        simp only [Bool.false_eq_true, if_false, hget] at hadd
        have hcomp' : comp' =
            { comp with
              extension := some (comp.extension.getD [] ++
                [(HtmlElementLink.mk (some k) c).to_dict]) } := by
          cases hadd; rfl
        subst hcomp'
        have hk' : k ≠ "" := by simpa using hk
        unfold get_html_element_link at hget ⊢
        unfold list_html_element_links at hget ⊢
        simp only [Option.getD_some, List.filter_append, List.map_append]
        rw [find?_append_of_left_none _ _ _ hget]
        have hone : List.filter
            (fun e => e.url == some HtmlElementLink.STRUCTURE_DEFINITION_URL)
            [(HtmlElementLink.mk (some k) c).to_dict] =
              [(HtmlElementLink.mk (some k) c).to_dict] := by
          simp [HtmlElementLink.to_dict]
        rw [hone, List.map_cons, List.map_nil]
        rw [link_roundtrip k c hk', codeable_reference_roundtrip c hc]
        exact List.find?_cons_of_pos _ (by simp)
      · rw [add_html_element_link, hk] at hadd
        simp only [Bool.false_eq_true, if_false, hget, Bool.not_false, if_pos] at hadd
        cases hadd
    · rw [add_html_element_link, hk] at hadd
      simp at hadd
  · intro comp k
    unfold get_html_element_link
    apply List.find?_eq_none.mpr
    intro l hl
    have := remove_no_key comp k l hl
    simp [this]

/-- Witness for C7 (amended): add key `a` with the empty concept to an empty
composition, get it back; remove a key from an empty composition and get
absent. -/
theorem annotation_store_roundtrip_witness :
    get_html_element_link compA "a" = some ⟨some "a", ⟨[]⟩⟩ ∧
      get_html_element_link ((remove_html_element_link { extension := none } "z").2) "z" =
        none :=
  ⟨annotation_store_roundtrip.1 { extension := none } "a" ⟨[]⟩ compA
     (by simp) rfl,
   annotation_store_roundtrip.2 { extension := none } "z"⟩

/-- Keeping the non-matches of `p` and counting the matches of `p`
partitions a list's length. -/
theorem filterNot_length_add_countP {α : Type} (p : α → Bool) :
    ∀ l : List α, (l.filter (fun a => !(p a))).length + l.countP p = l.length := by
  intro l
  induction l with
  | nil => rfl
  | cons a rest ih =>
    rw [List.filter_cons, List.countP_cons]
    rcases ha : p a with _ | _
    · simp only [Bool.not_false, eq_self_iff_true, Bool.false_eq_true, if_true,
        if_false, List.length_cons]
      omega
    · simp only [Bool.not_true, eq_self_iff_true, Bool.false_eq_true, if_true,
        if_false, List.length_cons]
      omega

/-- Dropping the matches of `p` shortens a list iff some element matches. -/
theorem filterNot_length_lt_iff {α : Type} (p : α → Bool) (l : List α) :
    ((l.filter (fun a => !(p a))).length < l.length) ↔ 0 < l.countP p := by
  have h := filterNot_length_add_countP p l
  omega

/-- No match of `p` survives dropping the matches of `p`. -/
theorem countP_filterNot_zero {α : Type} (p : α → Bool) :
    ∀ l : List α, (l.filter (fun a => !(p a))).countP p = 0 := by
  intro l
  induction l with
  | nil => rfl
  | cons a rest ih =>
    rcases ha : p a with _ | _
    · simp [List.filter_cons, ha, List.countP_cons, ih]
    · simp [List.filter_cons, ha, ih]

/-- Dropping the matches of `p` is the identity when nothing matches. -/
theorem filterNot_eq_self_of_countP_zero {α : Type} (p : α → Bool) :
    ∀ l : List α, l.countP p = 0 → l.filter (fun a => !(p a)) = l := by
  intro l
  induction l with
  | nil => intro _; rfl
  | cons a rest ih =>
    intro h
    rw [List.countP_cons] at h
    rcases ha : p a with _ | _
    · rw [if_neg (by simp [ha] : ¬(p a = true))] at h
      simp only [Nat.add_zero] at h
      simp [List.filter_cons, ha, ih h]
    · rw [if_pos (by simp [ha] : p a = true)] at h
      omega

/-- C8: with two or more annotations carrying the same element-class key,
one `remove_html_element_link` call returns true and deletes every match
(keeping exactly the non-matching extensions); with no match it returns
false; and `get_html_element_link` returns the first key-matching annotation
in list order. -/
theorem remove_duplicates_get_first :
    ∀ (comp : CompositionDict) (k : String),
      (2 ≤ (comp.extension.getD []).countP (fun e => extMatchesKey e k) →
        (remove_html_element_link comp k).1 = true ∧
        (remove_html_element_link comp k).2.extension =
          some ((comp.extension.getD []).filter (fun e => !(extMatchesKey e k))) ∧
        ((remove_html_element_link comp k).2.extension.getD []).countP
            (fun e => extMatchesKey e k) = 0) ∧
      ((comp.extension.getD []).countP (fun e => extMatchesKey e k) = 0 →
        (remove_html_element_link comp k).1 = false) ∧
      get_html_element_link comp k =
        ((list_html_element_links comp).filter
          (fun l => l.element_class == some k)).head? := by
  intro comp k
  refine ⟨?_, ?_, ?_⟩
  · intro h2
    rcases hext : comp.extension with _ | exts
    · rw [hext] at h2; simp at h2
    · rw [hext] at h2
      simp only [Option.getD_some] at h2
      have hpos : 0 < exts.countP (fun e => extMatchesKey e k) := by omega
      refine ⟨?_, ?_, ?_⟩
      · rw [remove_html_element_link, hext]
        exact decide_eq_true ((filterNot_length_lt_iff _ exts).mpr hpos)
      · rw [remove_html_element_link, hext]
        rfl
      · rw [remove_html_element_link, hext]
        simp only [Option.getD_some]
        exact countP_filterNot_zero _ exts
  · intro h0
    rcases hext : comp.extension with _ | exts
    · rw [remove_html_element_link, hext]
    · rw [hext] at h0
      simp only [Option.getD_some] at h0
      rw [remove_html_element_link, hext]
      show decide ((exts.filter fun e => !(extMatchesKey e k)).length < exts.length) = false
      rw [filterNot_eq_self_of_countP_zero _ exts h0]
      simp
  · unfold get_html_element_link
    exact find?_eq_head?_filter _ _

/-- Witness for C8 at `compDup` (two annotations keyed `a`, one keyed `b`):
removing `a` returns true; removing the unmatched `z` returns false; `get`
returns the head of the key-filtered link list. -/
theorem remove_duplicates_get_first_witness :
    (remove_html_element_link compDup "a").1 = true ∧
      (remove_html_element_link compDup "z").1 = false ∧
      get_html_element_link compDup "a" =
        ((list_html_element_links compDup).filter
          (fun l => l.element_class == some "a")).head? :=
  ⟨((remove_duplicates_get_first compDup "a").1 (by decide)).1,
   (remove_duplicates_get_first compDup "z").2.1 (by decide),
   (remove_duplicates_get_first compDup "a").2.2⟩

/-- C10: adding with `replace_if_exists=True` and a non-empty key always
returns true and leaves exactly one listed annotation carrying that element
class — duplicates are all removed first, then the single new entry is
appended. -/
theorem add_replace_single_key :
    ∀ (comp : CompositionDict) (k : String) (c : CodeableReference), k ≠ "" →
      ∃ comp', add_html_element_link comp k c true = .ok (true, comp') ∧
        (list_html_element_links comp').countP
          (fun l => l.element_class == some k) = 1 := by
  intro comp k c hk
  have hkb : (k == "") = false := beq_eq_false_iff_ne.mpr hk
  have hone : List.filter
      (fun e => e.url == some HtmlElementLink.STRUCTURE_DEFINITION_URL)
      [(HtmlElementLink.mk (some k) c).to_dict] =
        [(HtmlElementLink.mk (some k) c).to_dict] := by
    simp [HtmlElementLink.to_dict]
  have hnew : ((HtmlElementLink.from_dict
      ((HtmlElementLink.mk (some k) c).to_dict)).element_class == some k) = true := by
    rw [link_roundtrip k c hk]
    simp
  rcases hget : get_html_element_link comp k with _ | lnk
  · refine ⟨{ comp with
      extension := some (comp.extension.getD [] ++
        [(HtmlElementLink.mk (some k) c).to_dict]) }, ?_, ?_⟩
    · rw [add_html_element_link]
      simp only [hkb, Bool.false_eq_true, if_false, hget]
    · unfold list_html_element_links
      simp only [Option.getD_some, List.filter_append, List.map_append,
        List.countP_append]
      have hz : (List.map HtmlElementLink.from_dict
          (List.filter (fun e => e.url == some HtmlElementLink.STRUCTURE_DEFINITION_URL)
            (comp.extension.getD []))).countP
            (fun l => l.element_class == some k) = 0 := by
        apply List.countP_eq_zero.mpr
        intro l hl
        unfold get_html_element_link list_html_element_links at hget
        have hnone := List.find?_eq_none.mp hget l hl
        simpa using hnone
      rw [hone, List.map_cons, List.map_nil, hz]
      simp [List.countP_cons, hnew]
  · refine ⟨{ (remove_html_element_link comp k).2 with
      extension := some ((remove_html_element_link comp k).2.extension.getD [] ++
        [(HtmlElementLink.mk (some k) c).to_dict]) }, ?_, ?_⟩
    · rw [add_html_element_link]
      simp only [hkb, Bool.false_eq_true, if_false, hget, Bool.not_true]
    · unfold list_html_element_links
      simp only [Option.getD_some, List.filter_append, List.map_append,
        List.countP_append]
      have hz : (List.map HtmlElementLink.from_dict
          (List.filter (fun e => e.url == some HtmlElementLink.STRUCTURE_DEFINITION_URL)
            ((remove_html_element_link comp k).2.extension.getD []))).countP
            (fun l => l.element_class == some k) = 0 := by
        apply List.countP_eq_zero.mpr
        intro l hl
        have hnk := remove_no_key comp k l (by simpa [list_html_element_links] using hl)
        simp [hnk]
      rw [hone, List.map_cons, List.map_nil, hz]
      simp [List.countP_cons, hnew]

/-- Witness for C10 at `compDup` (duplicate annotations keyed `a`). -/
theorem add_replace_single_key_witness :
    ∃ comp', add_html_element_link compDup "a" ⟨[]⟩ true = .ok (true, comp') ∧
      (list_html_element_links comp').countP
        (fun l => l.element_class == some "a") = 1 :=
  add_replace_single_key compDup "a" ⟨[]⟩ (by decide)
